import Mathlib

/-!
Verification of the weenect-daemon sync core (worker.go, ratelimit.go, and the
SQLite store layer) against its natural-language specification.

Shallow embedding conventions:
* Timestamps (`time.Time`) are integers (seconds); the zero time / SQL NULL is
  `Option.none`.  `time.Now()` is a single environment value `Env.now` (Go reads
  the clock several times per operation; the small drift between those reads is
  irrelevant to every property below).
* SQL `REAL` columns (latitude, longitude, speed) are carried opaquely as `Int`:
  the core never computes with them, it only stores and compares them.
* Fallible external effects (the Weenect HTTP client and `database/sql` Exec /
  QueryRow I/O failures) are driven by oracles in an `Env` record; the
  successful semantics of each SQL statement is given by a pure function on a
  `Store` value mirroring the schema in the store layer.
-/

/-- Go `error` values as the worker sees them: either an underlying error
(an upstream / database error carrying its message) or a wrapping produced by
`fmt.Errorf("...: %w", err)`. -/
inductive Err where
  | msg : String → Err
  | wrap : String → Err → Err
deriving DecidableEq, Repr

/-- `err.Error()`: `fmt.Errorf("%s: %w", m, e)` renders as `m ++ ": " ++ e.Error()`. -/
def errString : Err → String
  | .msg s => s
  | .wrap m e => m ++ ": " ++ errString e

/-- A row of the `trackers` table (TrackerRecord in the store layer).
`lastSync` models the nullable `last_sync_timestamp` column: `none` is SQL NULL,
which `GetTracker` surfaces as the zero `time.Time`. -/
structure TrackerRecord where
  id : Nat
  name : String
  lastSync : Option Int
  createdAt : Int
  updatedAt : Int
deriving DecidableEq, Repr

/-- A row of the `positions` table (PositionRecord).  `id` is the
provider-assigned record identity (`id TEXT PRIMARY KEY`), the sole
deduplication key.  `created_at` is filled by the store (CURRENT_TIMESTAMP) and
no claim depends on it, so it is omitted. -/
structure PositionRecord where
  id : String
  trackerId : Nat
  timestamp : Int
  latitude : Int
  longitude : Int
  battery : Option Int
  speed : Option Int
  direction : Option Int
  validSignal : Option Bool
  satellites : Option Int
  gsm : Option Int
  typ : Option String
  lastMessage : Option Int
  dateServer : Option Int
  dateTracker : Option Int
deriving DecidableEq, Repr

/-- A row of the `sync_log` table (SyncLogRecord). -/
structure SyncLogRecord where
  trackerId : Option Nat
  syncTime : Int
  positionsFetched : Nat
  startDate : Option Int
  endDate : Option Int
  success : Bool
  errorMessage : Option String
  durationMs : Int
deriving DecidableEq, Repr

/-- The durable SQLite state: the three tables of the schema.  Lists are kept
in insertion order; primary-key uniqueness is maintained by the operations
themselves (`INSERT ... ON CONFLICT` semantics below). -/
structure Store where
  trackers : List TrackerRecord
  positions : List PositionRecord
  syncLog : List SyncLogRecord
deriving DecidableEq, Repr

/-- `SELECT ... FROM trackers WHERE id = ?` (first matching row). -/
def findTracker (s : Store) (id : Nat) : Option TrackerRecord :=
  s.trackers.find? (fun t => t.id == id)

/-- The tracker's stored checkpoint (`last_sync_timestamp`), `none` when the
row is absent or the column is NULL. -/
def checkpointOf (s : Store) (id : Nat) : Option Int :=
  match findTracker s id with
  | some t => t.lastSync
  | none => none

/-- `UpsertTracker`: `INSERT INTO trackers (id, name, created_at, updated_at)
VALUES (?, ?, now, now) ON CONFLICT(id) DO UPDATE SET name = excluded.name,
updated_at = now`.  A fresh row gets NULL `last_sync_timestamp` (the column is
not in the insert list); the conflict branch touches only `name` and
`updated_at`. -/
def UpsertTracker (s : Store) (id : Nat) (name : String) (now : Int) : Store :=
  if s.trackers.any (fun t => t.id == id) then
    { s with trackers :=
        s.trackers.map (fun t =>
          if t.id == id then { t with name := name, updatedAt := now } else t) }
  else
    { s with trackers :=
        s.trackers ++ [{ id := id, name := name, lastSync := none,
                         createdAt := now, updatedAt := now }] }

/-- `UpdateTrackerSyncTime`: `UPDATE trackers SET last_sync_timestamp = ?,
updated_at = now WHERE id = ?`.  An UPDATE matching no row succeeds and
changes nothing. -/
def UpdateTrackerSyncTime (s : Store) (id : Nat) (t now : Int) : Store :=
  { s with trackers :=
      s.trackers.map (fun tr =>
        if tr.id == id then { tr with lastSync := some t, updatedAt := now } else tr) }

/-- `InsertPosition`: `INSERT INTO positions (...) VALUES (...)
ON CONFLICT(id) DO NOTHING`.  A conflicting identity leaves the table
unchanged and is not an error (the Go method returns nil). -/
def InsertPosition (s : Store) (p : PositionRecord) : Store :=
  if s.positions.any (fun q => q.id == p.id) then s
  else { s with positions := s.positions ++ [p] }

/-- `InsertSyncLog`: unconditional append to `sync_log`. -/
def InsertSyncLog (s : Store) (l : SyncLogRecord) : Store :=
  { s with syncLog := s.syncLog ++ [l] }

/-- The oracle environment: the clock, the configuration, and the outcome of
every fallible external call (Weenect client calls and database I/O).  `none`
from an `...Err` oracle means the call succeeds and the pure `Store` semantics
applies. -/
structure Env where
  /-- `time.Now()` (one value; see the file comment). -/
  now : Int
  /-- elapsed-time value written into log entries' `duration_ms`. -/
  durationMs : Int
  /-- `cfg.BackfillStartDate` after parsing: `none` for the empty string,
  `some none` for a non-empty string `time.Parse` rejects, `some (some d)` for
  a string parsing to day `d`. -/
  backfillStartDate : Option (Option Int)
  /-- outcome of the `rateLimiter.Wait` preceding `client.Login`. -/
  waitLoginErr : Option Err
  /-- outcome of the `rateLimiter.Wait` preceding `client.GetTrackers`. -/
  waitListErr : Option Err
  /-- outcome of `client.Login`. -/
  loginErr : Option Err
  /-- outcome of `client.GetTrackers`: the (id, name) items, or an error. -/
  listTrackers : Except Err (List (Nat × String))
  /-- injected `database/sql` failure of the `GetTracker` read, per tracker id
  (`sql.ErrNoRows` for a missing row is produced by the model itself). -/
  getTrackerErr : Nat → Option Err
  /-- injected Exec failure of `UpsertTracker`, per tracker id. -/
  upsertErr : Nat → Option Err
  /-- outcome of the `rateLimiter.Wait` opening a chunk, keyed by the chunk's
  start time. -/
  waitChunkErr : Int → Option Err
  /-- `client.GetPosition(trackerID, start, end)`, keyed by the chunk range. -/
  fetch : Int × Int → Except Err (List PositionRecord)
  /-- injected Exec failure of `InsertPosition`, per record. -/
  insertErr : PositionRecord → Option Err
  /-- injected Exec failure of `UpdateTrackerSyncTime`, keyed by the written
  timestamp (the chunk end). -/
  checkpointErr : Int → Option Err
  /-- injected Exec failure of `InsertSyncLog`. -/
  insertLogErr : Option Err

/-- `GetTracker` as the worker sees it: an injected I/O failure, else the row,
else `sql.ErrNoRows`. -/
def GetTracker (env : Env) (s : Store) (id : Nat) : Except Err TrackerRecord :=
  match env.getTrackerErr id with
  | some e => .error e
  | none =>
    match findTracker s id with
    | some t => .ok t
    | none => .error (Err.msg "sql: no rows in result set")

/-- The 24-hour upstream per-request limit (`const maxDuration = 24 * time.Hour`
in worker.go), in seconds. -/
def maxDuration : Int := 86400

/-- One day, the distance of `time.Now().AddDate(0, 0, -1)` from now
(the default start when nothing else applies), in seconds. -/
def oneDay : Int := 86400

/-- The chunk-splitting loop of `fetchAndStorePositions`: while
`currentStart < endDate`, emit `(currentStart, min (currentStart + maxSpan)
endDate)` and continue from the emitted end.  The `Nat` argument is termination
fuel: with `1 ≤ maxSpan` every iteration advances `currentStart` by at least
one second, so `(endDate - currentStart).toNat` iterations always suffice
(established by `chunks_eq` below). -/
def chunksAux (maxSpan endDate : Int) : Nat → Int → List (Int × Int)
  | 0, _ => []
  | fuel + 1, cur =>
    if cur < endDate then
      (cur, min (cur + maxSpan) endDate) :: chunksAux maxSpan endDate fuel (min (cur + maxSpan) endDate)
    else []

/-- The ordered chunk sequence for `[startDate, endDate)` under `maxSpan`. -/
def chunks (startDate endDate maxSpan : Int) : List (Int × Int) :=
  chunksAux maxSpan endDate (endDate - startDate).toNat startDate

example : chunks 0 50 24 = [(0, 24), (24, 48), (48, 50)] := by decide
example : chunks 10 10 24 = [] := by decide
example : chunks 20 10 24 = [] := by decide
example : chunks 0 48 24 = [(0, 24), (24, 48)] := by decide

/-- The observable actions of one `fetchAndStorePositions` run, in the order
they happen: a rate-limiter permit granted for the chunk starting at a time, a
chunk fetched (with how many records came back), an `InsertPosition` call
issued for a record identity, a checkpoint write (`UpdateTrackerSyncTime`)
executed with a value. -/
inductive Event where
  | waited (chunkStart : Int)
  | fetched (chunkStart chunkEnd : Int) (count : Nat)
  | inserted (id : String)
  | checkpointed (t : Int)
deriving DecidableEq, Repr

/-- Result of `fetchAndStorePositions` (and of the internal `syncTracker`):
the store after the run, the returned record count, the checkpoint values
written in order, the event trace, and the returned error if any. -/
structure Outcome where
  store : Store
  total : Nat
  writes : List Int
  trace : List Event
  err? : Option Err
deriving DecidableEq, Repr

/-- The inner `for _, pos := range positions` loop of `fetchAndStorePositions`:
insert each record in order, stopping at the first failing Exec.  Returns the
store reached (the records before the failure stay inserted), the insert
events issued, and the error if any. -/
def insertAll (env : Env) : List PositionRecord → Store → Store × List Event × Option Err
  | [], s => (s, [], none)
  | p :: ps, s =>
    match env.insertErr p with
    | some e => (s, [], some e)
    | none =>
      let r := insertAll env ps (InsertPosition s p)
      (r.1, Event.inserted p.id :: r.2.1, r.2.2)

/-- The per-chunk loop body of `fetchAndStorePositions`, over an explicit chunk
list: for each chunk in order, rate-limit, fetch, insert every record, then
advance the checkpoint; any failure returns immediately with the running total
(`return totalPositions, err` in the Go source). -/
def runChunks (env : Env) (tid : Nat) : List (Int × Int) → Store → Nat → Outcome
  | [], s, total => ⟨s, total, [], [], none⟩
  | (cs, ce) :: rest, s, total =>
    match env.waitChunkErr cs with
    | some e => ⟨s, total, [], [], some e⟩
    | none =>
      match env.fetch (cs, ce) with
      | .error e =>
        ⟨s, total, [], [Event.waited cs], some (Err.wrap "failed to get positions" e)⟩
      | .ok ps =>
        let r := insertAll env ps s
        match r.2.2 with
        | some e =>
          ⟨r.1, total, [], Event.waited cs :: Event.fetched cs ce ps.length :: r.2.1,
            some (Err.wrap "failed to insert position" e)⟩
        | none =>
          match env.checkpointErr ce with
          | some e =>
            ⟨r.1, total + ps.length, [],
              Event.waited cs :: Event.fetched cs ce ps.length :: r.2.1,
              some (Err.wrap "failed to update sync time" e)⟩
          | none =>
            let out := runChunks env tid rest (UpdateTrackerSyncTime r.1 tid ce env.now) (total + ps.length)
            ⟨out.store, out.total, ce :: out.writes,
              Event.waited cs :: Event.fetched cs ce ps.length ::
                (r.2.1 ++ Event.checkpointed ce :: out.trace),
              out.err?⟩

/-- `fetchAndStorePositions(trackerID, startDate, endDate)`: split the range
into chunks of at most `maxDuration` and run the per-chunk loop. -/
def fetchAndStorePositions (env : Env) (tid : Nat) (s : Store) (startDate endDate : Int) : Outcome :=
  runChunks env tid (chunks startDate endDate maxDuration) s 0

/-- The `else if cfg.BackfillStartDate != "" { if parsed, err := time.Parse(...) }`
branch of `syncTracker`: a configured, parseable backfill date, else the
default `time.Now().AddDate(0, 0, -1)`. -/
def fromBackfill (now : Int) (cfg : Option (Option Int)) : Int :=
  match cfg with
  | some (some d) => d
  | _ => now - oneDay

/-- Start-date resolution of `syncTracker`: the stored checkpoint when the
tracker row was read and its `last_sync_timestamp` is non-zero, else the
configured backfill date (or the one-day default). -/
def resolveStartDate (now : Int) (tracker? : Option TrackerRecord)
    (cfg : Option (Option Int)) : Int :=
  match tracker? with
  | some t =>
    match t.lastSync with
    | some ts => ts
    | none => fromBackfill now cfg
  | none => fromBackfill now cfg

/-- The internal `syncTracker`: read the tracker (any read error is only
logged, leaving `tracker == nil`), resolve the start date, and fetch/store up
to `time.Now()`. -/
def syncTracker (env : Env) (s : Store) (tid : Nat) : Outcome :=
  let tracker? : Option TrackerRecord :=
    match GetTracker env s tid with
    | .ok t => some t
    | .error _ => none
  fetchAndStorePositions env tid s (resolveStartDate env.now tracker? env.backfillStartDate) env.now

/-- Per-entity verdict of the `SyncAll` loop: whether the entity synced
without error and how many records its sync returned. -/
structure EntityOutcome where
  trackerId : Nat
  ok : Bool
  positions : Nat
deriving DecidableEq, Repr

/-- The per-tracker loop of `SyncAll`: upsert the tracker, sync it, and on
either failure `continue` with the next tracker (the store keeps whatever the
failed sync already wrote). -/
def syncEntities (env : Env) : List (Nat × String) → Store → Store × List EntityOutcome
  | [], s => (s, [])
  | (tid, name) :: rest, s =>
    match env.upsertErr tid with
    | some _ =>
      let r := syncEntities env rest s
      (r.1, ⟨tid, false, 0⟩ :: r.2)
    | none =>
      let out := syncTracker env (UpsertTracker s tid name env.now) tid
      let r := syncEntities env rest out.store
      (r.1, ⟨tid, out.err?.isNone, out.total⟩ :: r.2)

/-- `SyncAll`: wait + login, wait + list trackers (each failure returns with
no log entry written), run the per-tracker loop, write one aggregate sync-log
entry (success iff zero trackers failed; `"<n> trackers failed"` otherwise;
a failing log insert is only logged), and return
`fmt.Errorf("sync completed with %d errors", errorCount)` when any tracker
failed.  `successCount` of the source feeds only the final Info log line. -/
def SyncAll (env : Env) (s : Store) : Store × Option Err :=
  match env.waitLoginErr with
  | some e => (s, some e)
  | none =>
  match env.loginErr with
  | some e => (s, some (Err.wrap "login failed" e))
  | none =>
  match env.waitListErr with
  | some e => (s, some e)
  | none =>
  match env.listTrackers with
  | .error e => (s, some (Err.wrap "failed to get trackers" e))
  | .ok items =>
    let r := syncEntities env items s
    let totalPositions := (r.2.filter (fun o => o.ok)).foldl (fun a o => a + o.positions) 0
    let errorCount := (r.2.filter (fun o => !o.ok)).length
    let entry : SyncLogRecord := {
      trackerId := none, syncTime := env.now, positionsFetched := totalPositions,
      startDate := none, endDate := none,
      success := errorCount == 0,
      errorMessage := if errorCount > 0 then some (toString errorCount ++ " trackers failed") else none,
      durationMs := env.durationMs }
    let s2 := match env.insertLogErr with
      | some _ => r.1
      | none => InsertSyncLog r.1 entry
    if errorCount > 0 then
      (s2, some (Err.msg ("sync completed with " ++ toString errorCount ++ " errors")))
    else (s2, none)

/-- `SyncTracker` (the public single-tracker sync): wait + login (failure
returns with no log entry), run the internal sync, then always write one
sync-log entry for this tracker — success flag and error text taken from the
sync's outcome — and propagate the sync's error. -/
def SyncTrackerOp (env : Env) (s : Store) (tid : Nat) : Store × Option Err :=
  match env.waitLoginErr with
  | some e => (s, some e)
  | none =>
  match env.loginErr with
  | some e => (s, some (Err.wrap "login failed" e))
  | none =>
    let out := syncTracker env s tid
    let entry : SyncLogRecord := {
      trackerId := some tid, syncTime := env.now, positionsFetched := out.total,
      startDate := none, endDate := none,
      success := out.err?.isNone,
      errorMessage := out.err?.map errString,
      durationMs := env.durationMs }
    let s2 := match env.insertLogErr with
      | some _ => out.store
      | none => InsertSyncLog out.store entry
    (s2, out.err?)

/-- The per-tracker loop of `BackfillAll`: upsert, fetch/store the explicit
range, and on either failure `continue`.  Nothing is counted and no sync-log
entry is ever written. -/
def backfillEntities (env : Env) (startDate endDate : Int) :
    List (Nat × String) → Store → Store
  | [], s => s
  | (tid, name) :: rest, s =>
    match env.upsertErr tid with
    | some _ => backfillEntities env startDate endDate rest s
    | none =>
      let out := fetchAndStorePositions env tid (UpsertTracker s tid name env.now) startDate endDate
      backfillEntities env startDate endDate rest out.store

/-- `BackfillAll`: wait + login, wait + list trackers, run the per-tracker
backfill loop, and return nil unconditionally — per-tracker failures are only
logged, never counted, and no sync-log entry is written. -/
def BackfillAll (env : Env) (s : Store) (startDate endDate : Int) : Store × Option Err :=
  match env.waitLoginErr with
  | some e => (s, some e)
  | none =>
  match env.loginErr with
  | some e => (s, some (Err.wrap "login failed" e))
  | none =>
  match env.waitListErr with
  | some e => (s, some e)
  | none =>
  match env.listTrackers with
  | .error e => (s, some (Err.wrap "failed to get trackers" e))
  | .ok items => (backfillEntities env startDate endDate items s, none)

/-- `BackfillTracker`: wait + login, then fetch/store the caller's explicit
range for the one tracker, propagating its error.  No sync-log entry is
written. -/
def BackfillTracker (env : Env) (s : Store) (tid : Nat) (startDate endDate : Int) :
    Store × Option Err :=
  match env.waitLoginErr with
  | some e => (s, some e)
  | none =>
  match env.loginErr with
  | some e => (s, some (Err.wrap "login failed" e))
  | none =>
    let out := fetchAndStorePositions env tid s startDate endDate
    (out.store, out.err?)

/-! ### Chunker lemmas -/

lemma chunksAux_nil_of_ge (m e : Int) (f : Nat) (cur : Int) (h : e ≤ cur) :
    chunksAux m e f cur = [] := by
  cases f with
  | zero => rfl
  | succ f => simp only [chunksAux, if_neg (by omega : ¬ cur < e)]

lemma chunksAux_mem_bounds (m e : Int) (hm : 0 < m) :
    ∀ (f : Nat) (cur : Int), ∀ c ∈ chunksAux m e f cur,
      cur ≤ c.1 ∧ c.1 < c.2 ∧ c.2 ≤ e ∧ c.2 - c.1 ≤ m := by
  intro f
  induction f with
  | zero => intro cur c hc; simp [chunksAux] at hc
  | succ f ih =>
    intro cur c hc
    by_cases h : cur < e
    · simp only [chunksAux, if_pos h, List.mem_cons] at hc
      rcases hc with rfl | hc
      · refine ⟨le_refl _, ?_, ?_, ?_⟩ <;> dsimp only <;> omega
      · have := ih (min (cur + m) e) c hc
        omega
    · rw [chunksAux, if_neg h] at hc
      simp at hc

lemma chunksAux_cover (m e : Int) (hm : 0 < m) :
    ∀ (f : Nat) (cur : Int), (e - cur).toNat ≤ f →
      ∀ t : Int, (∃ c ∈ chunksAux m e f cur, c.1 ≤ t ∧ t < c.2) ↔ (cur ≤ t ∧ t < e) := by
  intro f
  induction f with
  | zero =>
    intro cur hf t
    constructor
    · rintro ⟨c, hc, _⟩; simp [chunksAux] at hc
    · intro ht; omega
  | succ f ih =>
    intro cur hf t
    by_cases h : cur < e
    · have hf' : (e - min (cur + m) e).toNat ≤ f := by omega
      have htail := ih (min (cur + m) e) hf' t
      simp only [chunksAux, if_pos h, List.mem_cons]
      constructor
      · rintro ⟨c, rfl | hc, h1, h2⟩
        · dsimp only at h1 h2; omega
        · have := htail.1 ⟨c, hc, h1, h2⟩
          omega
      · intro ht
        by_cases h2 : t < min (cur + m) e
        · exact ⟨(cur, min (cur + m) e), Or.inl rfl, ht.1, h2⟩
        · obtain ⟨c, hc, hc1, hc2⟩ := htail.2 (by omega)
          exact ⟨c, Or.inr hc, hc1, hc2⟩
    · constructor
      · rintro ⟨c, hc, _⟩
        rw [chunksAux, if_neg h] at hc
        simp at hc
      · intro ht; omega

lemma chunksAux_length (m e : Int) (hm : 0 < m) :
    ∀ (f : Nat) (cur : Int), (e - cur).toNat ≤ f →
      (chunksAux m e f cur).length = ((e - cur).toNat + m.toNat - 1) / m.toNat := by
  intro f
  induction f with
  | zero =>
    intro cur hf
    have hD : (e - cur).toNat = 0 := by omega
    rw [chunksAux, hD]
    rw [Nat.div_eq_of_lt (by omega : 0 + m.toNat - 1 < m.toNat)]
    rfl
  | succ f ih =>
    intro cur hf
    by_cases h : cur < e
    · have hM : 0 < m.toNat := by omega
      have hD : 1 ≤ (e - cur).toNat := by omega
      have hf' : (e - min (cur + m) e).toNat ≤ f := by omega
      have hrec := ih (min (cur + m) e) hf'
      simp only [chunksAux, if_pos h, List.length_cons, hrec]
      have key : ((e - cur).toNat + m.toNat - 1) / m.toNat
          = ((e - cur).toNat - 1) / m.toNat + 1 := by
        have h1 : (e - cur).toNat + m.toNat - 1 = ((e - cur).toNat - 1) + m.toNat := by omega
        rw [h1, Nat.add_div_right _ hM]
      rw [key]
      have : (e - min (cur + m) e).toNat + m.toNat - 1 = ((e - cur).toNat - 1)
          ∨ ((e - min (cur + m) e).toNat = 0 ∧ (e - cur).toNat ≤ m.toNat) := by omega
      rcases this with h2 | ⟨h2, h3⟩
      · rw [h2]
      · rw [h2]
        rw [Nat.div_eq_of_lt (by omega : 0 + m.toNat - 1 < m.toNat),
          Nat.div_eq_of_lt (by omega : ((e - cur).toNat - 1) < m.toNat)]
    · rw [chunksAux, if_neg h]
      have hD : (e - cur).toNat = 0 := by omega
      rw [hD, Nat.div_eq_of_lt (by omega : 0 + m.toNat - 1 < m.toNat)]
      rfl

lemma chunksAux_snd_pairwise (m e : Int) (hm : 0 < m) :
    ∀ (f : Nat) (cur : Int), ((chunksAux m e f cur).map Prod.snd).Pairwise (· < ·) := by
  intro f
  induction f with
  | zero => intro cur; simp [chunksAux]
  | succ f ih =>
    intro cur
    by_cases h : cur < e
    · simp only [chunksAux, if_pos h, List.map_cons]
      refine List.pairwise_cons.2 ⟨?_, ih _⟩
      intro b hb
      simp only [List.mem_map] at hb
      obtain ⟨c, hc, rfl⟩ := hb
      have := chunksAux_mem_bounds m e hm f (min (cur + m) e) c hc
      show min (cur + m) e < c.2
      omega
    · rw [chunksAux, if_neg h]; simp

lemma chunksAux_fst_pairwise (m e : Int) (hm : 0 < m) :
    ∀ (f : Nat) (cur : Int), ((chunksAux m e f cur).map Prod.fst).Pairwise (· < ·) := by
  intro f
  induction f with
  | zero => intro cur; simp [chunksAux]
  | succ f ih =>
    intro cur
    by_cases h : cur < e
    · simp only [chunksAux, if_pos h, List.map_cons]
      refine List.pairwise_cons.2 ⟨?_, ih _⟩
      intro b hb
      simp only [List.mem_map] at hb
      obtain ⟨c, hc, rfl⟩ := hb
      have := chunksAux_mem_bounds m e hm f (min (cur + m) e) c hc
      show cur < c.1
      omega
    · rw [chunksAux, if_neg h]; simp

lemma chunksAux_head_fst (m e : Int) (f : Nat) (cur : Int) (c : Int × Int)
    (rest : List (Int × Int)) (h : chunksAux m e f cur = c :: rest) : c.1 = cur := by
  cases f with
  | zero => simp [chunksAux] at h
  | succ f =>
    by_cases hlt : cur < e
    · rw [chunksAux, if_pos hlt] at h
      injection h with h1 _
      rw [← h1]
    · rw [chunksAux, if_neg hlt] at h
      simp at h

lemma chunksAux_chain (m e : Int) :
    ∀ (f : Nat) (cur : Int),
      List.Chain' (fun a b : Int × Int => a.2 = b.1) (chunksAux m e f cur) := by
  intro f
  induction f with
  | zero => intro cur; simp [chunksAux]
  | succ f ih =>
    intro cur
    by_cases h : cur < e
    · simp only [chunksAux, if_pos h]
      refine List.chain'_cons'.2 ⟨?_, ih _⟩
      intro b hb
      cases htail : chunksAux m e f (min (cur + m) e) with
      | nil => rw [htail] at hb; simp at hb
      | cons c rest =>
        rw [htail] at hb
        simp only [List.head?_cons, Option.mem_def, Option.some.injEq] at hb
        have hc := chunksAux_head_fst m e f (min (cur + m) e) c rest htail
        show (cur, min (cur + m) e).2 = b.1
        rw [← hb, hc]
    · rw [chunksAux, if_neg h]; simp

lemma chunks_nil_of_ge (s e m : Int) (h : e ≤ s) : chunks s e m = [] := by
  have h0 : (e - s).toNat = 0 := by omega
  rw [chunks, h0]
  rfl

/-- C2: for all `start < end` and `maxSpan > 0` the chunking loop of
`fetchAndStorePositions` produces an ordered sequence of sub-ranges that are
contiguous (each chunk's end is the next chunk's start), cover exactly
`[start, end)`, each have positive length at most `maxSpan`, and number
exactly `ceil((end - start) / maxSpan)`; and when `start >= end` it produces
zero chunks, so the run performs no fetch, no store and no checkpoint write
and returns zero records. -/
theorem chunker_correct (s e m : Int) (hm : 0 < m) :
    List.Chain' (fun a b : Int × Int => a.2 = b.1) (chunks s e m)
  ∧ (∀ t : Int, (∃ c ∈ chunks s e m, c.1 ≤ t ∧ t < c.2) ↔ (s ≤ t ∧ t < e))
  ∧ (∀ c ∈ chunks s e m, c.1 < c.2 ∧ c.2 - c.1 ≤ m)
  ∧ (chunks s e m).length = ((e - s).toNat + m.toNat - 1) / m.toNat
  ∧ (e ≤ s → ∀ (env : Env) (tid : Nat) (st : Store),
      chunks s e m = [] ∧ fetchAndStorePositions env tid st s e = ⟨st, 0, [], [], none⟩) := by
  refine ⟨?_, ?_, ?_, ?_, ?_⟩
  · rw [chunks]; exact chunksAux_chain m e _ s
  · intro t; rw [chunks]; exact chunksAux_cover m e hm _ s (le_refl _) t
  · intro c hc
    rw [chunks] at hc
    have h := chunksAux_mem_bounds m e hm _ s c hc
    exact ⟨h.2.1, h.2.2.2⟩
  · rw [chunks]; exact chunksAux_length m e hm _ s (le_refl _)
  · intro h env tid st
    refine ⟨chunks_nil_of_ge s e m h, ?_⟩
    rw [fetchAndStorePositions, chunks_nil_of_ge s e maxDuration h]
    rfl

/-- Witness for C2 at `start = 0`, `end = 50`, `maxSpan = 24`
(three chunks: `[0,24) [24,48) [48,50)`). -/
theorem chunker_correct_witness :
    (0 : Int) < 24 ∧
    (List.Chain' (fun a b : Int × Int => a.2 = b.1) (chunks 0 50 24)
      ∧ (∀ t : Int, (∃ c ∈ chunks 0 50 24, c.1 ≤ t ∧ t < c.2) ↔ ((0 : Int) ≤ t ∧ t < 50))
      ∧ (∀ c ∈ chunks 0 50 24, c.1 < c.2 ∧ c.2 - c.1 ≤ 24)
      ∧ (chunks 0 50 24).length = (((50 : Int) - 0).toNat + (24 : Int).toNat - 1) / (24 : Int).toNat
      ∧ ((50 : Int) ≤ 0 → ∀ (env : Env) (tid : Nat) (st : Store),
          chunks 0 50 24 = [] ∧ fetchAndStorePositions env tid st 0 50 = ⟨st, 0, [], [], none⟩)) :=
  ⟨by decide, chunker_correct 0 50 24 (by decide)⟩

/-! ### Store lemmas -/

lemma find?_append_match {α : Type} (p : α → Bool) (l₁ l₂ : List α) :
    (l₁ ++ l₂).find? p =
      match l₁.find? p with
      | some x => some x
      | none => l₂.find? p := by
  induction l₁ with
  | nil => rfl
  | cons a l ih =>
    cases hpa : p a with
    | true =>
      rw [List.cons_append, List.find?_cons_of_pos _ hpa, List.find?_cons_of_pos _ hpa]
    | false =>
      rw [List.cons_append, List.find?_cons_of_neg _ (by simp [hpa]),
        List.find?_cons_of_neg _ (by simp [hpa]), ih]

lemma find?_map_cond_eq (l : List TrackerRecord) (id : Nat)
    (f : TrackerRecord → TrackerRecord) (hf : ∀ t, (f t).id = t.id) :
    (l.map (fun t => if t.id == id then f t else t)).find? (fun t => t.id == id) =
      (l.find? (fun t => t.id == id)).map f := by
  induction l with
  | nil => rfl
  | cons a l ih =>
    simp only [List.map_cons]
    by_cases h : a.id = id
    · have hb : (a.id == id) = true := by simp [h]
      have hfb : ((f a).id == id) = true := by simp [hf, h]
      rw [if_pos hb]
      simp only [List.find?_cons, hfb, hb]
      rfl
    · have hb : (a.id == id) = false := by simp [h]
      rw [if_neg (by simp [h] : ¬ (a.id == id) = true)]
      simp only [List.find?_cons, hb]
      exact ih

lemma find?_map_cond_ne (l : List TrackerRecord) (id j : Nat) (hne : ¬ j = id)
    (f : TrackerRecord → TrackerRecord) (hf : ∀ t, (f t).id = t.id) :
    (l.map (fun t => if t.id == id then f t else t)).find? (fun t => t.id == j) =
      l.find? (fun t => t.id == j) := by
  induction l with
  | nil => rfl
  | cons a l ih =>
    simp only [List.map_cons]
    by_cases h : a.id = id
    · have hb : (a.id == id) = true := by simp [h]
      have hj : (a.id == j) = false := by simp; omega
      have hfj : ((f a).id == j) = false := by simp [hf]; omega
      rw [if_pos hb]
      simp only [List.find?_cons, hj, hfj]
      exact ih
    · rw [if_neg (by simp [h] : ¬ (a.id == id) = true)]
      by_cases hj : a.id = j
      · have hjb : (a.id == j) = true := by simp [hj]
        simp only [List.find?_cons, hjb]
      · have hjb : (a.id == j) = false := by simp [hj]
        simp only [List.find?_cons, hjb]
        exact ih

lemma findTracker_update (s : Store) (id j : Nat) (t now : Int) :
    findTracker (UpdateTrackerSyncTime s id t now) j =
      if j = id then
        (findTracker s j).map (fun tr => { tr with lastSync := some t, updatedAt := now })
      else findTracker s j := by
  by_cases h : j = id
  · subst h
    rw [if_pos rfl]
    exact find?_map_cond_eq s.trackers j _ (fun t => rfl)
  · rw [if_neg h]
    exact find?_map_cond_ne s.trackers id j h _ (fun t => rfl)

lemma checkpointOf_update_self (s : Store) (id : Nat) (t now : Int)
    (h : (findTracker s id).isSome = true) :
    checkpointOf (UpdateTrackerSyncTime s id t now) id = some t := by
  rw [checkpointOf, findTracker_update, if_pos rfl]
  cases hf : findTracker s id with
  | none => rw [hf] at h; simp at h
  | some tr => rfl

lemma findTracker_update_isSome (s : Store) (id j : Nat) (t now : Int) :
    (findTracker (UpdateTrackerSyncTime s id t now) j).isSome = (findTracker s j).isSome := by
  rw [findTracker_update]
  by_cases h : j = id
  · rw [if_pos h]
    cases findTracker s j <;> rfl
  · rw [if_neg h]

lemma insertPosition_trackers (s : Store) (p : PositionRecord) :
    (InsertPosition s p).trackers = s.trackers := by
  rw [InsertPosition]; split <;> rfl

lemma insertPosition_syncLog (s : Store) (p : PositionRecord) :
    (InsertPosition s p).syncLog = s.syncLog := by
  rw [InsertPosition]; split <;> rfl

lemma upsertTracker_positions (s : Store) (id : Nat) (name : String) (now : Int) :
    (UpsertTracker s id name now).positions = s.positions := by
  rw [UpsertTracker]; split <;> rfl

lemma upsertTracker_syncLog (s : Store) (id : Nat) (name : String) (now : Int) :
    (UpsertTracker s id name now).syncLog = s.syncLog := by
  rw [UpsertTracker]; split <;> rfl

lemma findTracker_congr {s₁ s₂ : Store} (h : s₁.trackers = s₂.trackers) (j : Nat) :
    findTracker s₁ j = findTracker s₂ j := by
  rw [findTracker, findTracker, h]

lemma checkpointOf_congr {s₁ s₂ : Store} (h : s₁.trackers = s₂.trackers) (j : Nat) :
    checkpointOf s₁ j = checkpointOf s₂ j := by
  rw [checkpointOf, checkpointOf, findTracker_congr h]

/-! ### Per-chunk loop lemmas -/

/-- Number of records the upstream returns for a chunk (zero if the fetch
errors). -/
def fetchedLen (env : Env) (c : Int × Int) : Nat :=
  match env.fetch c with
  | .ok ps => ps.length
  | .error _ => 0

/-- Whether the loop body counts a chunk's records into `totalPositions`:
the permit was granted, the fetch succeeded and every insert Exec succeeded
(the count is added before the checkpoint write, so a chunk failing only at
the checkpoint write is still counted). -/
def chunkCounted (env : Env) (c : Int × Int) : Bool :=
  (env.waitChunkErr c.1).isNone &&
    match env.fetch c with
    | .ok ps => ps.all (fun p => (env.insertErr p).isNone)
    | .error _ => false

lemma insertAll_trackers (env : Env) :
    ∀ (ps : List PositionRecord) (s : Store), ((insertAll env ps s).1).trackers = s.trackers := by
  intro ps
  induction ps with
  | nil => intro s; rfl
  | cons p ps ih =>
    intro s
    simp only [insertAll]
    cases h : env.insertErr p with
    | some e => rfl
    | none =>
      show ((insertAll env ps (InsertPosition s p)).1).trackers = s.trackers
      rw [ih, insertPosition_trackers]

lemma insertAll_syncLog (env : Env) :
    ∀ (ps : List PositionRecord) (s : Store), ((insertAll env ps s).1).syncLog = s.syncLog := by
  intro ps
  induction ps with
  | nil => intro s; rfl
  | cons p ps ih =>
    intro s
    simp only [insertAll]
    cases h : env.insertErr p with
    | some e => rfl
    | none =>
      show ((insertAll env ps (InsertPosition s p)).1).syncLog = s.syncLog
      rw [ih, insertPosition_syncLog]

lemma insertAll_err_iff (env : Env) :
    ∀ (ps : List PositionRecord) (s : Store),
      ((insertAll env ps s).2.2 = none ↔ ps.all (fun p => (env.insertErr p).isNone) = true) := by
  intro ps
  induction ps with
  | nil => intro s; simp [insertAll]
  | cons p ps ih =>
    intro s
    simp only [insertAll, List.all_cons]
    cases h : env.insertErr p with
    | some e => simp [h]
    | none => simp [h, ih]

lemma insertAll_events_of_ok (env : Env) :
    ∀ (ps : List PositionRecord) (s : Store), (insertAll env ps s).2.2 = none →
      (insertAll env ps s).2.1 = ps.map (fun p => Event.inserted p.id) := by
  intro ps
  induction ps with
  | nil => intro s _; rfl
  | cons p ps ih =>
    intro s hok
    simp only [insertAll] at hok ⊢
    cases h : env.insertErr p with
    | some e => rw [h] at hok; simp at hok
    | none =>
      rw [h] at hok
      show Event.inserted p.id :: (insertAll env ps (InsertPosition s p)).2.1 = _
      rw [List.map_cons, ih (InsertPosition s p) hok]

lemma insertAll_events_mem (env : Env) :
    ∀ (ps : List PositionRecord) (s : Store) (ev : Event),
      ev ∈ (insertAll env ps s).2.1 → ∃ p, p ∈ ps ∧ ev = Event.inserted p.id := by
  intro ps
  induction ps with
  | nil => intro s ev h; simp [insertAll] at h
  | cons p ps ih =>
    intro s ev hev
    simp only [insertAll] at hev
    cases h : env.insertErr p with
    | some e => rw [h] at hev; simp at hev
    | none =>
      rw [h] at hev
      rcases List.mem_cons.1 hev with rfl | hev
      · exact ⟨p, List.mem_cons_self p ps, rfl⟩
      · obtain ⟨q, hq, rfl⟩ := ih (InsertPosition s p) ev hev
        exact ⟨q, List.mem_cons_of_mem p hq, rfl⟩

lemma runChunks_spec (env : Env) (tid : Nat) :
    ∀ (L : List (Int × Int)) (s : Store) (total : Nat),
      ∃ k, k ≤ L.length ∧
        (runChunks env tid L s total).writes = (L.take k).map Prod.snd ∧
        ((runChunks env tid L s total).err? = none ↔ k = L.length) ∧
        (runChunks env tid L s total).total = total +
          (((L.take k).map (fetchedLen env)).sum +
            (match L.get? k with
             | some c => if chunkCounted env c then fetchedLen env c else 0
             | none => 0)) ∧
        (∀ x : Int, Event.waited x ∈ (runChunks env tid L s total).trace →
          x ∈ (L.take (k + 1)).map Prod.fst) := by
  intro L
  induction L with
  | nil =>
    intro s total
    refine ⟨0, le_refl _, rfl, by simp [runChunks], by simp [runChunks], ?_⟩
    intro x hx
    simp [runChunks] at hx
  | cons c rest ih =>
    intro s total
    obtain ⟨cs, ce⟩ := c
    cases hw : env.waitChunkErr cs with
    | some e =>
      refine ⟨0, Nat.zero_le _, ?_, ?_, ?_, ?_⟩
      · simp [runChunks, hw]
      · simp [runChunks, hw]
      · simp [runChunks, hw, chunkCounted]
      · intro x hx
        simp [runChunks, hw] at hx
    | none =>
      cases hf : env.fetch (cs, ce) with
      | error e =>
        refine ⟨0, Nat.zero_le _, ?_, ?_, ?_, ?_⟩
        · simp [runChunks, hw, hf]
        · simp [runChunks, hw, hf]
        · simp [runChunks, hw, hf, chunkCounted]
        · intro x hx
          simp [runChunks, hw, hf] at hx
          simp [hx]
      | ok ps =>
        cases hi : (insertAll env ps s).2.2 with
        | some e =>
          have hall : ps.all (fun p => (env.insertErr p).isNone) = false := by
            cases hall : ps.all (fun p => (env.insertErr p).isNone) with
            | false => rfl
            | true =>
              have := (insertAll_err_iff env ps s).2 hall
              rw [this] at hi
              exact absurd hi (by simp)
          refine ⟨0, Nat.zero_le _, ?_, ?_, ?_, ?_⟩
          · simp [runChunks, hw, hf, hi]
          · simp [runChunks, hw, hf, hi]
          · simp [runChunks, hw, hf, hi, chunkCounted, hall]
          · intro x hx
            simp only [runChunks, hw, hf, hi, List.mem_cons] at hx
            rcases hx with h | h | h
            · simp only [Event.waited.injEq] at h
              subst h
              simp [List.take_succ_cons]
            · simp at h
            · obtain ⟨p, _, heq⟩ := insertAll_events_mem env ps s _ h
              simp at heq
        | none =>
          cases hc : env.checkpointErr ce with
          | some e =>
            have hall : ps.all (fun p => (env.insertErr p).isNone) = true :=
              (insertAll_err_iff env ps s).1 hi
            refine ⟨0, Nat.zero_le _, ?_, ?_, ?_, ?_⟩
            · simp [runChunks, hw, hf, hi, hc]
            · simp [runChunks, hw, hf, hi, hc]
            · simp [runChunks, hw, hf, hi, hc, chunkCounted, hall, fetchedLen]
            · intro x hx
              simp only [runChunks, hw, hf, hi, hc, List.mem_cons] at hx
              rcases hx with h | h | h
              · simp only [Event.waited.injEq] at h
                subst h
                simp [List.take_succ_cons]
              · simp at h
              · obtain ⟨p, _, heq⟩ := insertAll_events_mem env ps s _ h
                simp at heq
          | none =>
            obtain ⟨k', hk1, hk2, hk3, hk4, hk5⟩ :=
              ih (UpdateTrackerSyncTime (insertAll env ps s).1 tid ce env.now) (total + ps.length)
            refine ⟨k' + 1, by simpa using Nat.succ_le_succ hk1, ?_, ?_, ?_, ?_⟩
            · simp only [runChunks, hw, hf, hi, hc, List.take_succ_cons, List.map_cons]
              rw [hk2]
            · simp only [runChunks, hw, hf, hi, hc, List.length_cons]
              rw [hk3]
              omega
            · simp only [runChunks, hw, hf, hi, hc, List.take_succ_cons, List.map_cons,
                List.sum_cons, List.get?_cons_succ]
              rw [hk4]
              have hfl : fetchedLen env (cs, ce) = ps.length := by simp [fetchedLen, hf]
              rw [hfl]
              omega
            · intro x hx
              simp only [runChunks, hw, hf, hi, hc, List.mem_cons, List.mem_append] at hx
              rcases hx with h | h | h | h | h
              · simp only [Event.waited.injEq] at h
                subst h
                simp [List.take_succ_cons]
              · simp at h
              · obtain ⟨p, _, heq⟩ := insertAll_events_mem env ps s _ h
                simp at heq
              · simp at h
              · have := hk5 x h
                simp only [List.take_succ_cons, List.map_cons, List.mem_cons]
                exact Or.inr this

lemma runChunks_trace_checkpointed (env : Env) (tid : Nat) :
    ∀ (L : List (Int × Int)) (s : Store) (total : Nat) (w : Int),
      Event.checkpointed w ∈ (runChunks env tid L s total).trace → w ∈ L.map Prod.snd := by
  intro L
  induction L with
  | nil => intro s total w h; simp [runChunks] at h
  | cons c rest ih =>
    intro s total w h
    obtain ⟨cs, ce⟩ := c
    cases hw : env.waitChunkErr cs with
    | some e => simp [runChunks, hw] at h
    | none =>
      cases hf : env.fetch (cs, ce) with
      | error e => simp [runChunks, hw, hf] at h
      | ok ps =>
        cases hi : (insertAll env ps s).2.2 with
        | some e =>
          simp only [runChunks, hw, hf, hi, List.mem_cons] at h
          rcases h with h | h | h
          · simp at h
          · simp at h
          · obtain ⟨p, _, heq⟩ := insertAll_events_mem env ps s _ h
            simp at heq
        | none =>
          cases hc : env.checkpointErr ce with
          | some e =>
            simp only [runChunks, hw, hf, hi, hc, List.mem_cons] at h
            rcases h with h | h | h
            · simp at h
            · simp at h
            · obtain ⟨p, _, heq⟩ := insertAll_events_mem env ps s _ h
              simp at heq
          | none =>
            simp only [runChunks, hw, hf, hi, hc, List.mem_cons, List.mem_append] at h
            rcases h with h | h | h | h | h
            · simp at h
            · simp at h
            · obtain ⟨p, _, heq⟩ := insertAll_events_mem env ps s _ h
              simp at heq
            · simp only [Event.checkpointed.injEq] at h
              subst h
              simp
            · have := ih _ _ w h
              simp [this]

lemma runChunks_trace_waited (env : Env) (tid : Nat) (L : List (Int × Int)) (s : Store)
    (total : Nat) (x : Int) (hx : Event.waited x ∈ (runChunks env tid L s total).trace) :
    x ∈ L.map Prod.fst := by
  obtain ⟨k, -, -, -, -, h5⟩ := runChunks_spec env tid L s total
  have hmem := h5 x hx
  rw [List.map_take] at hmem
  exact (List.take_sublist _ _).mem hmem

lemma runChunks_checkpoint (env : Env) (tid : Nat) :
    ∀ (L : List (Int × Int)) (s : Store) (total : Nat),
      (findTracker s tid).isSome = true →
      checkpointOf (runChunks env tid L s total).store tid =
        (match (runChunks env tid L s total).writes.getLast? with
         | some w => some w
         | none => checkpointOf s tid) := by
  intro L
  induction L with
  | nil => intro s total _; rfl
  | cons c rest ih =>
    intro s total hsome
    obtain ⟨cs, ce⟩ := c
    cases hw : env.waitChunkErr cs with
    | some e => simp [runChunks, hw]
    | none =>
      cases hf : env.fetch (cs, ce) with
      | error e => simp [runChunks, hw, hf]
      | ok ps =>
        cases hi : (insertAll env ps s).2.2 with
        | some e =>
          simp only [runChunks, hw, hf, hi, List.getLast?_nil]
          exact checkpointOf_congr (insertAll_trackers env ps s) tid
        | none =>
          cases hc : env.checkpointErr ce with
          | some e =>
            simp only [runChunks, hw, hf, hi, hc, List.getLast?_nil]
            exact checkpointOf_congr (insertAll_trackers env ps s) tid
          | none =>
            have hsome1 : (findTracker (insertAll env ps s).1 tid).isSome = true := by
              rw [findTracker_congr (insertAll_trackers env ps s)]
              exact hsome
            have hsome2 :
                (findTracker (UpdateTrackerSyncTime (insertAll env ps s).1 tid ce env.now)
                  tid).isSome = true := by
              rw [findTracker_update_isSome]
              exact hsome1
            have hrec := ih (UpdateTrackerSyncTime (insertAll env ps s).1 tid ce env.now)
              (total + ps.length) hsome2
            simp only [runChunks, hw, hf, hi, hc]
            rw [hrec]
            cases hws : (runChunks env tid rest
                (UpdateTrackerSyncTime (insertAll env ps s).1 tid ce env.now)
                (total + ps.length)).writes with
            | nil =>
              simp only [List.getLast?_nil, List.getLast?_singleton]
              exact checkpointOf_update_self _ _ _ _ hsome1
            | cons w ws =>
              rw [List.getLast?_cons_cons]
              cases hgl : (w :: ws).getLast? with
              | none => simp at hgl
              | some v => rfl

lemma split_at_event {I M pre post : List Event} {x : Event}
    (hI : ∀ y ∈ I, y ≠ x) (h : I ++ M = pre ++ x :: post) :
    ∃ pre', pre = I ++ pre' ∧ M = pre' ++ x :: post := by
  induction I generalizing pre with
  | nil => exact ⟨pre, rfl, h⟩
  | cons a I ih =>
    cases pre with
    | nil =>
      rw [List.cons_append, List.nil_append] at h
      injection h with h1 h2
      exact absurd h1 (hI a (List.mem_cons_self a I))
    | cons b pre =>
      rw [List.cons_append, List.cons_append] at h
      injection h with h1 h2
      obtain ⟨pre', hp, hm⟩ := ih (fun y hy => hI y (List.mem_cons_of_mem a hy)) h2
      refine ⟨pre', ?_, hm⟩
      rw [List.cons_append, ← hp, h1]

lemma runChunks_ordering (env : Env) (tid : Nat) :
    ∀ (L : List (Int × Int)) (s : Store) (total : Nat),
      (L.map Prod.snd).Pairwise (· < ·) →
      ∀ (pre post : List Event) (w : Int),
        (runChunks env tid L s total).trace = pre ++ Event.checkpointed w :: post →
        ∀ c ∈ L, c.2 = w → ∀ qs, env.fetch c = Except.ok qs →
          ∀ p ∈ qs, Event.inserted p.id ∈ pre := by
  intro L
  induction L with
  | nil =>
    intro s total _ pre post w htr c hcL
    simp at hcL
  | cons c0 rest ih =>
    intro s total hpw pre post w htr c hcL hc2 qs hqs p hp
    obtain ⟨cs, ce⟩ := c0
    simp only [List.map_cons] at hpw
    have hpwc := List.pairwise_cons.1 hpw
    cases hw : env.waitChunkErr cs with
    | some e =>
      have hmem : Event.checkpointed w ∈ (runChunks env tid ((cs, ce) :: rest) s total).trace := by
        rw [htr]
        exact List.mem_append_right _ (List.mem_cons_self _ _)
      simp [runChunks, hw] at hmem
    | none =>
      cases hf : env.fetch (cs, ce) with
      | error e =>
        have hmem : Event.checkpointed w ∈ (runChunks env tid ((cs, ce) :: rest) s total).trace := by
          rw [htr]
          exact List.mem_append_right _ (List.mem_cons_self _ _)
        simp [runChunks, hw, hf] at hmem
      | ok ps =>
        cases hi : (insertAll env ps s).2.2 with
        | some e =>
          have hmem : Event.checkpointed w ∈ (runChunks env tid ((cs, ce) :: rest) s total).trace := by
            rw [htr]
            exact List.mem_append_right _ (List.mem_cons_self _ _)
          simp only [runChunks, hw, hf, hi, List.mem_cons] at hmem
          rcases hmem with h | h | h
          · simp at h
          · simp at h
          · obtain ⟨q, _, heq⟩ := insertAll_events_mem env ps s _ h
            simp at heq
        | none =>
          cases hc : env.checkpointErr ce with
          | some e =>
            have hmem : Event.checkpointed w ∈ (runChunks env tid ((cs, ce) :: rest) s total).trace := by
              rw [htr]
              exact List.mem_append_right _ (List.mem_cons_self _ _)
            simp only [runChunks, hw, hf, hi, hc, List.mem_cons] at hmem
            rcases hmem with h | h | h
            · simp at h
            · simp at h
            · obtain ⟨q, _, heq⟩ := insertAll_events_mem env ps s _ h
              simp at heq
          | none =>
            have hIev := insertAll_events_of_ok env ps s hi
            simp only [runChunks, hw, hf, hi, hc] at htr
            cases pre with
            | nil =>
              rw [List.nil_append] at htr
              injection htr with h1 _
              simp at h1
            | cons a pre1 =>
              rw [List.cons_append] at htr
              injection htr with h1 htr
              cases pre1 with
              | nil =>
                rw [List.nil_append] at htr
                injection htr with h2 _
                simp at h2
              | cons b pre2 =>
                rw [List.cons_append] at htr
                injection htr with h2 htr
                rw [hIev] at htr
                have hne : ∀ y ∈ ps.map (fun q => Event.inserted q.id),
                    y ≠ Event.checkpointed w := by
                  intro y hy
                  obtain ⟨q, _, rfl⟩ := List.mem_map.1 hy
                  simp
                obtain ⟨pre', hpre2, hM⟩ := split_at_event hne htr
                cases pre' with
                | nil =>
                  rw [List.nil_append] at hM
                  injection hM with hM1 hM2
                  have hcew : ce = w := by
                    simpa using hM1
                  rcases List.mem_cons.1 hcL with heq | hcrest
                  · have hqs' : Except.ok (ε := Err) ps = Except.ok qs := by
                      rw [← hf, ← hqs, heq]
                    have hpsqs : ps = qs := by
                      injection hqs'
                    refine List.mem_cons_of_mem a (List.mem_cons_of_mem b ?_)
                    rw [hpre2, List.append_nil]
                    exact List.mem_map_of_mem _ (hpsqs ▸ hp)
                  · exfalso
                    have : ce < c.2 := hpwc.1 c.2 (List.mem_map_of_mem Prod.snd hcrest)
                    omega
                | cons z pre3 =>
                  injection hM with hM1 hM2
                  rcases List.mem_cons.1 hcL with heq | hcrest
                  · exfalso
                    have hcw : Event.checkpointed w ∈ (runChunks env tid rest
                        (UpdateTrackerSyncTime (insertAll env ps s).1 tid ce env.now)
                        (total + ps.length)).trace := by
                      rw [hM2]
                      exact List.mem_append_right _ (List.mem_cons_self _ _)
                    have hwrest := runChunks_trace_checkpointed env tid rest _ _ w hcw
                    have : ce < w := hpwc.1 w hwrest
                    have : ce = w := by
                      have := congrArg Prod.snd heq
                      simpa using this.symm.trans hc2
                    omega
                  · have := ih (UpdateTrackerSyncTime (insertAll env ps s).1 tid ce env.now)
                      (total + ps.length) hpwc.2 pre3 post w hM2 c hcrest hc2 qs hqs p hp
                    refine List.mem_cons_of_mem a (List.mem_cons_of_mem b ?_)
                    rw [hpre2]
                    refine List.mem_append_right _ ?_
                    exact List.mem_cons_of_mem z this

lemma runChunks_waited_count (env : Env) (tid : Nat) :
    ∀ (L : List (Int × Int)) (s : Store) (total : Nat),
      (L.map Prod.fst).Pairwise (· < ·) →
      ∀ x : Int, ((runChunks env tid L s total).trace.count (Event.waited x)) ≤ 1 := by
  intro L
  induction L with
  | nil => intro s total _ x; simp [runChunks]
  | cons c0 rest ih =>
    intro s total hpw x
    obtain ⟨cs, ce⟩ := c0
    simp only [List.map_cons] at hpw
    have hpwc := List.pairwise_cons.1 hpw
    cases hw : env.waitChunkErr cs with
    | some e => simp [runChunks, hw]
    | none =>
      have hIcnt : ∀ (ps : List PositionRecord) (s' : Store),
          ((insertAll env ps s').2.1.count (Event.waited x)) = 0 := by
        intro ps s'
        rw [List.count_eq_zero]
        intro hmem
        obtain ⟨q, _, heq⟩ := insertAll_events_mem env ps s' _ hmem
        simp at heq
      cases hf : env.fetch (cs, ce) with
      | error e =>
        simp only [runChunks, hw, hf]
        simp [List.count_cons]
        split <;> omega
      | ok ps =>
        cases hi : (insertAll env ps s).2.2 with
        | some e =>
          simp only [runChunks, hw, hf, hi, List.count_cons, hIcnt]
          split <;> split <;> simp_all
        | none =>
          cases hc : env.checkpointErr ce with
          | some e =>
            simp only [runChunks, hw, hf, hi, hc, List.count_cons, hIcnt]
            split <;> split <;> simp_all
          | none =>
            simp only [runChunks, hw, hf, hi, hc, List.count_cons, List.count_append,
              hIcnt]
            by_cases hx : x = cs
            · subst hx
              have h0 : ((runChunks env tid rest
                  (UpdateTrackerSyncTime (insertAll env ps s).1 tid ce env.now)
                  (total + ps.length)).trace.count (Event.waited x)) = 0 := by
                rw [List.count_eq_zero]
                intro hmem
                have := runChunks_trace_waited env tid rest _ _ x hmem
                have hlt := hpwc.1 x this
                omega
              rw [h0]
              simp
            · have h1 := ih (UpdateTrackerSyncTime (insertAll env ps s).1 tid ce env.now)
                (total + ps.length) hpwc.2 x
              have hwx : ((Event.waited cs == Event.waited x) = true) = False := by
                simp
                omega
              simp [hwx]
              omega

lemma not_mem_take_of_pairwise_lt :
    ∀ (l : List Int) (k : Nat) (a : Int), l.Pairwise (· < ·) → l.get? k = some a →
      a ∉ l.take k := by
  intro l
  induction l with
  | nil => intro k a _ h; simp at h
  | cons b l ih =>
    intro k a hpw hk
    cases k with
    | zero => simp
    | succ k =>
      rw [List.get?_cons_succ] at hk
      rw [List.take_succ_cons]
      intro hmem
      rcases List.mem_cons.1 hmem with rfl | hmem
      · have hal : a ∈ l := List.get?_mem hk
        have := (List.pairwise_cons.1 hpw).1 a hal
        omega
      · exact ih k a (List.pairwise_cons.1 hpw).2 hk hmem

/-- C1: within one `fetchAndStorePositions` run the sequence of checkpoint
writes is monotonically non-decreasing (in fact strictly increasing); a
checkpoint value is written only after an insert call was issued for every
record fetched for its chunk (every such insert event precedes the
checkpoint event in the trace); a failing chunk never advances the
checkpoint (the writes are exactly the ends of the completed prefix, and the
failing chunk's end is not among them); and the stored checkpoint afterwards
is the last written value (unchanged when nothing was written). -/
theorem checkpoint_monotone_guarded (env : Env) (tid : Nat) (s : Store) (sd ed : Int) :
    List.Chain' (· ≤ ·) (fetchAndStorePositions env tid s sd ed).writes
  ∧ (∀ (pre post : List Event) (w : Int),
      (fetchAndStorePositions env tid s sd ed).trace = pre ++ Event.checkpointed w :: post →
      ∀ c ∈ chunks sd ed maxDuration, c.2 = w →
        ∀ qs, env.fetch c = Except.ok qs → ∀ p ∈ qs, Event.inserted p.id ∈ pre)
  ∧ (∀ e, (fetchAndStorePositions env tid s sd ed).err? = some e →
      ∃ k, k < (chunks sd ed maxDuration).length ∧
        (fetchAndStorePositions env tid s sd ed).writes =
          ((chunks sd ed maxDuration).take k).map Prod.snd ∧
        ∀ c, (chunks sd ed maxDuration).get? k = some c →
          c.2 ∉ (fetchAndStorePositions env tid s sd ed).writes)
  ∧ ((findTracker s tid).isSome = true →
      checkpointOf (fetchAndStorePositions env tid s sd ed).store tid =
        (match (fetchAndStorePositions env tid s sd ed).writes.getLast? with
         | some w => some w
         | none => checkpointOf s tid)) := by
  have hpos : (0 : Int) < maxDuration := by decide
  have hpw_snd : ((chunks sd ed maxDuration).map Prod.snd).Pairwise (· < ·) := by
    rw [chunks]
    exact chunksAux_snd_pairwise maxDuration ed hpos _ sd
  obtain ⟨k, hkle, hwr, herr, htot, hwaited⟩ := runChunks_spec env tid (chunks sd ed maxDuration) s 0
  refine ⟨?_, ?_, ?_, ?_⟩
  · show List.Chain' (· ≤ ·) (runChunks env tid (chunks sd ed maxDuration) s 0).writes
    rw [hwr, List.map_take]
    exact ((hpw_snd.sublist (List.take_sublist _ _)).imp (fun h => le_of_lt h)).chain'
  · intro pre post w htr c hcmem hc2 qs hqs p hp
    exact runChunks_ordering env tid _ s 0 hpw_snd pre post w htr c hcmem hc2 qs hqs p hp
  · intro e he
    have hklt : k < (chunks sd ed maxDuration).length := by
      rcases Nat.lt_or_ge k (chunks sd ed maxDuration).length with hlt | hge
      · exact hlt
      · exfalso
        have hkeq : k = (chunks sd ed maxDuration).length := le_antisymm hkle hge
        have hnone : (fetchAndStorePositions env tid s sd ed).err? = none := herr.2 hkeq
        rw [he] at hnone
        exact Option.noConfusion hnone
    refine ⟨k, hklt, hwr, ?_⟩
    intro c hgk
    show c.2 ∉ (runChunks env tid (chunks sd ed maxDuration) s 0).writes
    rw [hwr, List.map_take]
    apply not_mem_take_of_pairwise_lt _ k c.2 hpw_snd
    rw [List.get?_map, hgk]
    rfl
  · intro hsome
    exact runChunks_checkpoint env tid _ s 0 hsome

/-- An environment in which every external call succeeds: the clock reads
1000000, the tracker list is empty, every fetch returns no records. -/
def baseEnv : Env where
  now := 1000000
  durationMs := 5
  backfillStartDate := none
  waitLoginErr := none
  waitListErr := none
  loginErr := none
  listTrackers := Except.ok []
  getTrackerErr := fun _ => none
  upsertErr := fun _ => none
  waitChunkErr := fun _ => none
  fetch := fun _ => Except.ok []
  insertErr := fun _ => none
  checkpointErr := fun _ => none
  insertLogErr := none

def emptyStore : Store := ⟨[], [], []⟩

/-- A concrete telemetry record with the given identity. -/
def mkPos (i : String) : PositionRecord where
  id := i
  trackerId := 1
  timestamp := 0
  latitude := 10
  longitude := 20
  battery := none
  speed := none
  direction := none
  validSignal := none
  satellites := none
  gsm := none
  typ := none
  lastMessage := none
  dateServer := none
  dateTracker := none

/-- Environment for the C3 scenarios: one chunk `[0, 10)` fetching two
records, whose second insert fails. -/
def c3Env : Env :=
  { baseEnv with
    fetch := fun r => if r == ((0 : Int), (10 : Int)) then Except.ok [mkPos "a", mkPos "b"]
      else Except.ok [],
    insertErr := fun p => if p.id == "b" then some (Err.msg "disk I/O error") else none }

/-- C3 counterexample: the run fails and returns record count 0, yet one
record (`"a"`) was durably stored before the failing insert — so the
returned count is not "the count of records successfully stored so far". -/
theorem returned_count_lt_stored_count :
    (fetchAndStorePositions c3Env 1 emptyStore 0 10).err?.isSome = true ∧
    (fetchAndStorePositions c3Env 1 emptyStore 0 10).total = 0 ∧
    (fetchAndStorePositions c3Env 1 emptyStore 0 10).store.positions = [mkPos "a"] := by
  refine ⟨by decide, by decide, by decide⟩

/-- C3 (amended): any failure inside the per-chunk loop aborts the remaining
chunks immediately — no chunk after the failing one is even started, and no
chunk's rate-limit wait happens twice (no internal retry) — and the function
returns the error together with the count of records fetched in the chunks
whose inserts completed (the completed prefix, plus the failing chunk when
only its checkpoint write failed); records of the failing chunk inserted
before the failure remain stored but are not counted.  Checkpoints advanced
by prior successful chunks remain in place: the stored checkpoint equals the
last written value. -/
theorem abort_preserves_progress (env : Env) (tid : Nat) (s : Store) (sd ed : Int) (e : Err)
    (h : (fetchAndStorePositions env tid s sd ed).err? = some e) :
    ∃ k, k < (chunks sd ed maxDuration).length ∧
      (fetchAndStorePositions env tid s sd ed).writes =
        ((chunks sd ed maxDuration).take k).map Prod.snd ∧
      (∀ c ∈ (chunks sd ed maxDuration).drop (k + 1),
        Event.waited c.1 ∉ (fetchAndStorePositions env tid s sd ed).trace) ∧
      (∀ x : Int, ((fetchAndStorePositions env tid s sd ed).trace.count (Event.waited x)) ≤ 1) ∧
      (fetchAndStorePositions env tid s sd ed).total =
        (((chunks sd ed maxDuration).take k).map (fetchedLen env)).sum +
          (match (chunks sd ed maxDuration).get? k with
           | some c => if chunkCounted env c then fetchedLen env c else 0
           | none => 0) ∧
      ((findTracker s tid).isSome = true →
        checkpointOf (fetchAndStorePositions env tid s sd ed).store tid =
          (match (fetchAndStorePositions env tid s sd ed).writes.getLast? with
           | some w => some w
           | none => checkpointOf s tid)) := by
  have hpos : (0 : Int) < maxDuration := by decide
  have hpw_fst : ((chunks sd ed maxDuration).map Prod.fst).Pairwise (· < ·) := by
    rw [chunks]
    exact chunksAux_fst_pairwise maxDuration ed hpos _ sd
  obtain ⟨k, hkle, hwr, herr, htot, hwaited⟩ := runChunks_spec env tid (chunks sd ed maxDuration) s 0
  have hklt : k < (chunks sd ed maxDuration).length := by
    rcases Nat.lt_or_ge k (chunks sd ed maxDuration).length with hlt | hge
    · exact hlt
    · exfalso
      have hkeq : k = (chunks sd ed maxDuration).length := le_antisymm hkle hge
      have : (fetchAndStorePositions env tid s sd ed).err? = none := herr.2 hkeq
      rw [h] at this
      exact absurd this (by simp)
  refine ⟨k, hklt, hwr, ?_, ?_, ?_, ?_⟩
  · intro c hcdrop hwmem
    have h1 : c.1 ∈ ((chunks sd ed maxDuration).take (k + 1)).map Prod.fst := hwaited c.1 hwmem
    have h2 : c.1 ∈ ((chunks sd ed maxDuration).drop (k + 1)).map Prod.fst :=
      List.mem_map_of_mem Prod.fst hcdrop
    have hsplit : ((chunks sd ed maxDuration).take (k + 1)).map Prod.fst ++
        ((chunks sd ed maxDuration).drop (k + 1)).map Prod.fst =
        (chunks sd ed maxDuration).map Prod.fst := by
      rw [← List.map_append, List.take_append_drop]
    rw [← hsplit] at hpw_fst
    have := (List.pairwise_append.1 hpw_fst).2.2 c.1 h1 c.1 h2
    omega
  · exact runChunks_waited_count env tid _ s 0 hpw_fst
  · show (runChunks env tid (chunks sd ed maxDuration) s 0).total = _
    rw [htot]
    omega
  · intro hsome
    exact runChunks_checkpoint env tid _ s 0 hsome

/-- Witness for C3: `c3Env` fails at the second insert of its single chunk. -/
theorem abort_preserves_progress_witness :
    ∃ k, k < (chunks 0 10 maxDuration).length ∧
      (fetchAndStorePositions c3Env 1 emptyStore 0 10).writes =
        ((chunks 0 10 maxDuration).take k).map Prod.snd ∧
      (∀ c ∈ (chunks 0 10 maxDuration).drop (k + 1),
        Event.waited c.1 ∉ (fetchAndStorePositions c3Env 1 emptyStore 0 10).trace) ∧
      (∀ x : Int, ((fetchAndStorePositions c3Env 1 emptyStore 0 10).trace.count
        (Event.waited x)) ≤ 1) ∧
      (fetchAndStorePositions c3Env 1 emptyStore 0 10).total =
        (((chunks 0 10 maxDuration).take k).map (fetchedLen c3Env)).sum +
          (match (chunks 0 10 maxDuration).get? k with
           | some c => if chunkCounted c3Env c then fetchedLen c3Env c else 0
           | none => 0) ∧
      ((findTracker emptyStore 1).isSome = true →
        checkpointOf (fetchAndStorePositions c3Env 1 emptyStore 0 10).store 1 =
          (match (fetchAndStorePositions c3Env 1 emptyStore 0 10).writes.getLast? with
           | some w => some w
           | none => checkpointOf emptyStore 1)) :=
  abort_preserves_progress c3Env 1 emptyStore 0 10
    (Err.wrap "failed to insert position" (Err.msg "disk I/O error")) (by decide)

/-- The checkpoint as `syncTracker`'s read observes it: the row's
`last_sync_timestamp` when the `GetTracker` read succeeds and the column is
set, otherwise nothing. -/
def storedCheckpoint (env : Env) (s : Store) (tid : Nat) : Option Int :=
  match GetTracker env s tid with
  | .ok t => t.lastSync
  | .error _ => none

lemma syncTracker_eq (env : Env) (s : Store) (tid : Nat) :
    syncTracker env s tid = fetchAndStorePositions env tid s
      (resolveStartDate env.now
        (match GetTracker env s tid with
         | .ok t => some t
         | .error _ => none) env.backfillStartDate) env.now := rfl

/-- C4: an incremental sync starts at the stored checkpoint when one exists;
with no checkpoint and a configured, parseable backfill floor date it starts
at the floor; the incremental end is always `time.Now()`, and a backfill uses
the caller's explicit range unchanged. -/
theorem effective_range_resolution (env : Env) (s : Store) (tid : Nat) (sd ed : Int) :
    (∀ ts, storedCheckpoint env s tid = some ts →
      syncTracker env s tid = fetchAndStorePositions env tid s ts env.now)
  ∧ (∀ d, storedCheckpoint env s tid = none → env.backfillStartDate = some (some d) →
      syncTracker env s tid = fetchAndStorePositions env tid s d env.now)
  ∧ (env.waitLoginErr = none → env.loginErr = none →
      BackfillTracker env s tid sd ed =
        ((fetchAndStorePositions env tid s sd ed).store,
         (fetchAndStorePositions env tid s sd ed).err?)) := by
  refine ⟨?_, ?_, ?_⟩
  · intro ts hts
    rw [syncTracker_eq]
    rw [storedCheckpoint] at hts
    cases hg : GetTracker env s tid with
    | error e =>
      rw [hg] at hts
      exact Option.noConfusion hts
    | ok t =>
      rw [hg] at hts
      have hts' : t.lastSync = some ts := hts
      show fetchAndStorePositions env tid s
        (resolveStartDate env.now (some t) env.backfillStartDate) env.now = _
      simp only [resolveStartDate, hts']
  · intro d hts hcfg
    rw [syncTracker_eq]
    rw [storedCheckpoint] at hts
    cases hg : GetTracker env s tid with
    | error e =>
      show fetchAndStorePositions env tid s
        (resolveStartDate env.now none env.backfillStartDate) env.now = _
      simp only [resolveStartDate, fromBackfill, hcfg]
    | ok t =>
      rw [hg] at hts
      have hts' : t.lastSync = none := hts
      show fetchAndStorePositions env tid s
        (resolveStartDate env.now (some t) env.backfillStartDate) env.now = _
      simp only [resolveStartDate, hts', fromBackfill, hcfg]
  · intro h1 h2
    simp only [BackfillTracker, h1, h2]

/-- C10: any error from the `GetTracker` read — an injected I/O failure of any
kind, not only "row not found" — is swallowed: the sync proceeds exactly as
for a never-synced tracker, starting at the configured backfill floor, or at
`now` minus one day when the floor is unset (`none`) or unparseable
(`some none`), and no error is propagated at that point. -/
theorem read_error_swallowed (env : Env) (s : Store) (tid : Nat) (e : Err)
    (h : env.getTrackerErr tid = some e) :
    syncTracker env s tid =
      fetchAndStorePositions env tid s (fromBackfill env.now env.backfillStartDate) env.now
  ∧ fromBackfill env.now none = env.now - oneDay
  ∧ fromBackfill env.now (some none) = env.now - oneDay := by
  refine ⟨?_, rfl, rfl⟩
  rw [syncTracker_eq]
  have hg : GetTracker env s tid = Except.error e := by
    rw [GetTracker, h]
  rw [hg]
  rfl

/-- A tracker row with a stored checkpoint, used by the C10 witness: the
injected read failure makes the sync ignore this checkpoint. -/
def tr10 : TrackerRecord where
  id := 1
  name := "pet"
  lastSync := some 500
  createdAt := 0
  updatedAt := 0

def st10 : Store := ⟨[tr10], [], []⟩

def env10 : Env :=
  { baseEnv with getTrackerErr := fun i => if i == 1 then some (Err.msg "database is locked") else none }

/-- Witness for C10 at a store whose tracker row 1 has checkpoint 500: the
injected read error makes the sync fall back to the backfill default. -/
theorem read_error_swallowed_witness :
    (syncTracker env10 st10 1 =
      fetchAndStorePositions env10 1 st10 (fromBackfill env10.now env10.backfillStartDate) env10.now)
  ∧ fromBackfill env10.now none = env10.now - oneDay
  ∧ fromBackfill env10.now (some none) = env10.now - oneDay :=
  read_error_swallowed env10 st10 1 (Err.msg "database is locked") (by decide)

/-! ### Store-level claims -/

lemma insertPosition_mem_noop (s : Store) (q : PositionRecord)
    (h : s.positions.any (fun r => r.id == q.id) = true) : InsertPosition s q = s := by
  rw [InsertPosition, if_pos h]

/-- C7: inserting a record whose identity is already stored is a silent no-op
(`ON CONFLICT(id) DO NOTHING`): inserting `p` and then any `q` with the same
identity leaves the store exactly as after inserting `p` alone, and the rows
with that identity are exactly the first-written `[p]`. -/
theorem insert_first_write_wins (s : Store) (p q : PositionRecord)
    (hid : q.id = p.id) (hnew : s.positions.filter (fun r => r.id == p.id) = []) :
    InsertPosition (InsertPosition s p) q = InsertPosition s p
  ∧ (InsertPosition (InsertPosition s p) q).positions.filter (fun r => r.id == p.id) = [p] := by
  have hq : (InsertPosition s p).positions.any (fun r => r.id == q.id) = true := by
    rw [InsertPosition]
    by_cases hs : s.positions.any (fun r => r.id == p.id) = true
    · rw [if_pos hs]
      simp only [hid]
      exact hs
    · rw [if_neg hs]
      show (s.positions ++ [p]).any (fun r => r.id == q.id) = true
      rw [List.any_append]
      simp [hid]
  have h1 : InsertPosition (InsertPosition s p) q = InsertPosition s p :=
    insertPosition_mem_noop _ q hq
  refine ⟨h1, ?_⟩
  rw [h1]
  have hanyf : s.positions.any (fun r => r.id == p.id) = false := by
    rw [List.any_eq_false]
    intro r hr
    exact List.filter_eq_nil.1 hnew r hr
  rw [InsertPosition, if_neg (by simp [hanyf])]
  show (s.positions ++ [p]).filter (fun r => r.id == p.id) = [p]
  rw [List.filter_append, hnew]
  simp

/-- A second record with the identity of `mkPos "x"` but different attribute
values, for the C7 witness. -/
def qPos : PositionRecord := { mkPos "x" with latitude := 99 }

/-- Witness for C7: re-inserting identity `"x"` with different attributes
into a store that first stored `mkPos "x"` keeps exactly the first row. -/
theorem insert_first_write_wins_witness :
    InsertPosition (InsertPosition emptyStore (mkPos "x")) qPos =
      InsertPosition emptyStore (mkPos "x")
  ∧ (InsertPosition (InsertPosition emptyStore (mkPos "x")) qPos).positions.filter
      (fun r => r.id == (mkPos "x").id) = [mkPos "x"] :=
  insert_first_write_wins emptyStore (mkPos "x") qPos (by decide) (by decide)

lemma findTracker_upsert (s : Store) (id j : Nat) (name : String) (now : Int) :
    findTracker (UpsertTracker s id name now) j =
      if j = id then
        (match findTracker s id with
         | some t => some { t with name := name, updatedAt := now }
         | none => some { id := id, name := name, lastSync := none,
                          createdAt := now, updatedAt := now })
      else findTracker s j := by
  rw [UpsertTracker]
  by_cases hany : s.trackers.any (fun t => t.id == id) = true
  · rw [if_pos hany]
    by_cases hj : j = id
    · subst hj
      rw [if_pos rfl]
      simp only [findTracker]
      rw [find?_map_cond_eq s.trackers j
        (fun t => { t with name := name, updatedAt := now }) (fun t => rfl)]
      cases hf : s.trackers.find? (fun t => t.id == j) with
      | none =>
        exfalso
        obtain ⟨x, hx, hpx⟩ := List.any_eq_true.1 hany
        rw [List.find?_eq_none] at hf
        exact hf x hx hpx
      | some t => rfl
    · rw [if_neg hj]
      simp only [findTracker]
      exact find?_map_cond_ne s.trackers id j hj
        (fun t => { t with name := name, updatedAt := now }) (fun t => rfl)
  · rw [if_neg hany]
    have hnone : s.trackers.find? (fun t => t.id == id) = none := by
      rw [List.find?_eq_none]
      intro x hx hpx
      exact hany (List.any_eq_true.2 ⟨x, hx, hpx⟩)
    by_cases hj : j = id
    · subst hj
      rw [if_pos rfl]
      simp only [findTracker]
      rw [find?_append_match, hnone]
      simp [List.find?_cons]
    · rw [if_neg hj]
      simp only [findTracker]
      rw [find?_append_match]
      cases hf : s.trackers.find? (fun t => t.id == j) with
      | some t => rfl
      | none =>
        show List.find? (fun (t : TrackerRecord) => t.id == j)
          [{ id := id, name := name, lastSync := none, createdAt := now, updatedAt := now }] = none
        rw [List.find?_eq_none]
        intro x hx hpx
        simp only [List.mem_singleton] at hx
        subst hx
        simp only [beq_iff_eq] at hpx
        exact hj hpx.symm

/-- C9: `UpsertTracker` creates the row when the id is new (with NULL
checkpoint) and otherwise rewrites only the name and the update timestamp;
in both cases every tracker's stored checkpoint is exactly what it was
before, rows with other ids are untouched, and the positions and sync-log
tables are untouched. -/
theorem upsert_preserves_checkpoint (s : Store) (id : Nat) (name : String) (now : Int) :
    (∀ j, checkpointOf (UpsertTracker s id name now) j = checkpointOf s j)
  ∧ (findTracker (UpsertTracker s id name now) id).isSome = true
  ∧ (∀ t, findTracker s id = some t →
      findTracker (UpsertTracker s id name now) id =
        some { t with name := name, updatedAt := now })
  ∧ (findTracker s id = none →
      findTracker (UpsertTracker s id name now) id =
        some { id := id, name := name, lastSync := none, createdAt := now, updatedAt := now })
  ∧ (∀ j, j ≠ id → findTracker (UpsertTracker s id name now) j = findTracker s j)
  ∧ (UpsertTracker s id name now).positions = s.positions
  ∧ (UpsertTracker s id name now).syncLog = s.syncLog := by
  refine ⟨?_, ?_, ?_, ?_, ?_, upsertTracker_positions s id name now,
    upsertTracker_syncLog s id name now⟩
  · intro j
    rw [checkpointOf, checkpointOf, findTracker_upsert]
    by_cases hj : j = id
    · subst hj
      rw [if_pos rfl]
      cases findTracker s j with
      | none => rfl
      | some t => rfl
    · rw [if_neg hj]
  · rw [findTracker_upsert, if_pos rfl]
    cases findTracker s id with
    | none => rfl
    | some t => rfl
  · intro t ht
    rw [findTracker_upsert, if_pos rfl, ht]
  · intro ht
    rw [findTracker_upsert, if_pos rfl, ht]
  · intro j hj
    rw [findTracker_upsert, if_neg hj]

/-! ### Operation-level lemmas -/

lemma runChunks_syncLog (env : Env) (tid : Nat) :
    ∀ (L : List (Int × Int)) (s : Store) (total : Nat),
      ((runChunks env tid L s total).store).syncLog = s.syncLog := by
  intro L
  induction L with
  | nil => intro s total; rfl
  | cons c rest ih =>
    intro s total
    obtain ⟨cs, ce⟩ := c
    cases hw : env.waitChunkErr cs with
    | some e => simp [runChunks, hw]
    | none =>
      cases hf : env.fetch (cs, ce) with
      | error e => simp [runChunks, hw, hf]
      | ok ps =>
        cases hi : (insertAll env ps s).2.2 with
        | some e =>
          simp only [runChunks, hw, hf, hi]
          exact insertAll_syncLog env ps s
        | none =>
          cases hc : env.checkpointErr ce with
          | some e =>
            simp only [runChunks, hw, hf, hi, hc]
            exact insertAll_syncLog env ps s
          | none =>
            simp only [runChunks, hw, hf, hi, hc]
            rw [ih]
            exact insertAll_syncLog env ps s

lemma fetchAndStore_syncLog (env : Env) (tid : Nat) (s : Store) (sd ed : Int) :
    ((fetchAndStorePositions env tid s sd ed).store).syncLog = s.syncLog :=
  runChunks_syncLog env tid _ s 0

lemma syncTracker_syncLog (env : Env) (s : Store) (tid : Nat) :
    ((syncTracker env s tid).store).syncLog = s.syncLog := by
  rw [syncTracker_eq]
  exact fetchAndStore_syncLog env tid s _ env.now

lemma syncEntities_syncLog (env : Env) :
    ∀ (items : List (Nat × String)) (s : Store),
      ((syncEntities env items s).1).syncLog = s.syncLog := by
  intro items
  induction items with
  | nil => intro s; rfl
  | cons it rest ih =>
    intro s
    obtain ⟨tid, name⟩ := it
    cases hu : env.upsertErr tid with
    | some e =>
      simp only [syncEntities, hu]
      exact ih s
    | none =>
      simp only [syncEntities, hu]
      rw [ih, syncTracker_syncLog, upsertTracker_syncLog]

lemma backfillEntities_syncLog (env : Env) (sd ed : Int) :
    ∀ (items : List (Nat × String)) (s : Store),
      (backfillEntities env sd ed items s).syncLog = s.syncLog := by
  intro items
  induction items with
  | nil => intro s; rfl
  | cons it rest ih =>
    intro s
    obtain ⟨tid, name⟩ := it
    cases hu : env.upsertErr tid with
    | some e =>
      simp only [backfillEntities, hu]
      exact ih s
    | none =>
      simp only [backfillEntities, hu]
      rw [ih, fetchAndStore_syncLog, upsertTracker_syncLog]

lemma syncEntities_ids (env : Env) :
    ∀ (items : List (Nat × String)) (s : Store),
      ((syncEntities env items s).2.map (fun o => o.trackerId)) = items.map Prod.fst := by
  intro items
  induction items with
  | nil => intro s; rfl
  | cons it rest ih =>
    intro s
    obtain ⟨tid, name⟩ := it
    cases hu : env.upsertErr tid with
    | some e =>
      simp only [syncEntities, hu, List.map_cons]
      rw [ih]
    | none =>
      simp only [syncEntities, hu, List.map_cons]
      rw [ih]

/-- C5 (amended): `SyncAll` and `SyncTracker` append exactly one operation-log
entry per invocation once the phase before the per-tracker work has succeeded
(rate-limit waits, login, and — for `SyncAll` — the tracker listing) and the
log insert itself does not fail; failures before that phase (including
authentication failure) return without writing any entry, and `BackfillAll`
and `BackfillTracker` never write an operation-log entry at all. -/
theorem operation_log_behavior (env : Env) (s : Store) (tid : Nat) (sd ed : Int)
    (h1 : env.waitLoginErr = none) (h2 : env.loginErr = none) (h3 : env.insertLogErr = none) :
    (∀ items, env.waitListErr = none → env.listTrackers = Except.ok items →
      (SyncAll env s).1.syncLog.length = s.syncLog.length + 1)
  ∧ (SyncTrackerOp env s tid).1.syncLog.length = s.syncLog.length + 1
  ∧ (BackfillAll env s sd ed).1.syncLog.length = s.syncLog.length
  ∧ (BackfillTracker env s tid sd ed).1.syncLog.length = s.syncLog.length := by
  refine ⟨?_, ?_, ?_, ?_⟩
  · intro items hwl hlist
    simp only [SyncAll, h1, h2, hwl, hlist, h3]
    split
    · show ((InsertSyncLog _ _).syncLog).length = _
      simp [InsertSyncLog, syncEntities_syncLog]
    · show ((InsertSyncLog _ _).syncLog).length = _
      simp [InsertSyncLog, syncEntities_syncLog]
  · simp only [SyncTrackerOp, h1, h2, h3]
    show ((InsertSyncLog _ _).syncLog).length = _
    simp [InsertSyncLog, syncTracker_syncLog]
  · cases hwl : env.waitListErr with
    | some e => simp [BackfillAll, h1, h2, hwl]
    | none =>
      cases hlist : env.listTrackers with
      | error e => simp [BackfillAll, h1, h2, hwl, hlist]
      | ok items =>
        simp only [BackfillAll, h1, h2, hwl, hlist]
        exact congrArg List.length (backfillEntities_syncLog env sd ed items s)
  · simp only [BackfillTracker, h1, h2]
    exact congrArg List.length (fetchAndStore_syncLog env tid s sd ed)

/-- Witness for C5 at the all-success environment. -/
theorem operation_log_behavior_witness :
    (∀ items, baseEnv.waitListErr = none → baseEnv.listTrackers = Except.ok items →
      (SyncAll baseEnv emptyStore).1.syncLog.length = emptyStore.syncLog.length + 1)
  ∧ (SyncTrackerOp baseEnv emptyStore 1).1.syncLog.length = emptyStore.syncLog.length + 1
  ∧ (BackfillAll baseEnv emptyStore 0 10).1.syncLog.length = emptyStore.syncLog.length
  ∧ (BackfillTracker baseEnv emptyStore 1 0 10).1.syncLog.length = emptyStore.syncLog.length :=
  operation_log_behavior baseEnv emptyStore 1 0 10 rfl rfl rfl

def env5 : Env := { baseEnv with loginErr := some (Err.msg "invalid credentials") }

/-- C5 counterexample: a `SyncAll` invocation that fails at authentication
appends no operation-log entry, and a successful `BackfillTracker` invocation
appends none either — both contradict "every invocation appends exactly one
operation-log entry". -/
theorem auth_failure_writes_no_log :
    ((SyncAll env5 emptyStore).2).isSome = true ∧
    (SyncAll env5 emptyStore).1.syncLog.length = 0 ∧
    (BackfillTracker baseEnv emptyStore 1 0 10).2 = none ∧
    (BackfillTracker baseEnv emptyStore 1 0 10).1.syncLog.length = 0 := by
  refine ⟨by decide, by decide, by decide, by decide⟩

/-- C6 (amended): `SyncAll` processes the listed entities sequentially and
continues past per-entity failures — every entity gets a verdict, in listing
order — aggregates records over the successful entities, returns no error if
and only if zero entities failed, and writes one operation-log entry whose
success flag is "zero failures" and whose error text summarizes the failure
count.  `BackfillAll` also continues past failures, but it aggregates nothing
and returns no error unconditionally once login and listing succeed, even
when entities fail. -/
theorem fleet_isolation_aggregation (env : Env) (s : Store) (items : List (Nat × String))
    (sd ed : Int) (h1 : env.waitLoginErr = none) (h2 : env.loginErr = none)
    (h3 : env.waitListErr = none) (h4 : env.listTrackers = Except.ok items)
    (h5 : env.insertLogErr = none) :
    ((SyncAll env s).2 = none ↔
      ((syncEntities env items s).2.filter (fun o => !o.ok)).length = 0)
  ∧ ((syncEntities env items s).2.map (fun o => o.trackerId)) = items.map Prod.fst
  ∧ (SyncAll env s).1.syncLog = s.syncLog ++ [{
      trackerId := none
      syncTime := env.now
      positionsFetched := (((syncEntities env items s).2.filter (fun o => o.ok)).map
        (fun o => o.positions)).sum
      startDate := none
      endDate := none
      success := (((syncEntities env items s).2.filter (fun o => !o.ok)).length == 0)
      errorMessage :=
        if ((syncEntities env items s).2.filter (fun o => !o.ok)).length > 0 then
          some (toString ((syncEntities env items s).2.filter (fun o => !o.ok)).length
            ++ " trackers failed")
        else none
      durationMs := env.durationMs }]
  ∧ (BackfillAll env s sd ed).2 = none := by
  have hsum : ((((syncEntities env items s).2.filter (fun o => o.ok)).map
      (fun o => o.positions)).sum)
      = ((syncEntities env items s).2.filter (fun o => o.ok)).foldl
          (fun a o => a + o.positions) 0 := by
    rw [List.sum_eq_foldl, List.foldl_map]
  refine ⟨?_, syncEntities_ids env items s, ?_, ?_⟩
  · simp only [SyncAll, h1, h2, h3, h4, h5]
    by_cases hec : ((syncEntities env items s).2.filter (fun o => !o.ok)).length > 0
    · rw [if_pos hec]
      constructor
      · intro h
        exact absurd h (by simp)
      · intro h
        omega
    · rw [if_neg hec]
      constructor
      · intro _
        omega
      · intro _
        rfl
  · simp only [SyncAll, h1, h2, h3, h4, h5]
    by_cases hec : ((syncEntities env items s).2.filter (fun o => !o.ok)).length > 0
    · rw [if_pos hec]
      show ((InsertSyncLog _ _).syncLog) = _
      rw [InsertSyncLog]
      show ((syncEntities env items s).1).syncLog ++ _ = _
      rw [syncEntities_syncLog, hsum]
    · rw [if_neg hec]
      show ((InsertSyncLog _ _).syncLog) = _
      rw [InsertSyncLog]
      show ((syncEntities env items s).1).syncLog ++ _ = _
      rw [syncEntities_syncLog, hsum]
  · simp only [BackfillAll, h1, h2, h3, h4]

def env6 : Env :=
  { baseEnv with
    listTrackers := Except.ok [(1, "pet")],
    fetch := fun _ => Except.error (Err.msg "upstream 500") }

/-- C6 counterexample: in `env6` the single listed entity's backfill fails
(its fetch errors), yet `BackfillAll` returns no error — the claimed
"reported successful iff zero entities failed" does not hold for
`BackfillAll`. -/
theorem backfill_failure_reports_success :
    (BackfillAll env6 emptyStore 0 10).2 = none ∧
    (fetchAndStorePositions env6 1 (UpsertTracker emptyStore 1 "pet" env6.now)
      0 10).err?.isSome = true := by
  refine ⟨by decide, by decide⟩

/-- Witness for C6 at `env6` (one entity, which fails): `SyncAll` reports the
failure while `BackfillAll` reports success. -/
theorem fleet_isolation_aggregation_witness :
    ((SyncAll env6 emptyStore).2 = none ↔
      ((syncEntities env6 [(1, "pet")] emptyStore).2.filter (fun o => !o.ok)).length = 0)
  ∧ ((syncEntities env6 [(1, "pet")] emptyStore).2.map (fun o => o.trackerId))
      = ([(1, "pet")] : List (Nat × String)).map Prod.fst
  ∧ (SyncAll env6 emptyStore).1.syncLog = emptyStore.syncLog ++ [{
      trackerId := none
      syncTime := env6.now
      positionsFetched := (((syncEntities env6 [(1, "pet")] emptyStore).2.filter
        (fun o => o.ok)).map (fun o => o.positions)).sum
      startDate := none
      endDate := none
      success := (((syncEntities env6 [(1, "pet")] emptyStore).2.filter
        (fun o => !o.ok)).length == 0)
      errorMessage :=
        if ((syncEntities env6 [(1, "pet")] emptyStore).2.filter
            (fun o => !o.ok)).length > 0 then
          some (toString ((syncEntities env6 [(1, "pet")] emptyStore).2.filter
            (fun o => !o.ok)).length ++ " trackers failed")
        else none
      durationMs := env6.durationMs }]
  ∧ (BackfillAll env6 emptyStore 0 10).2 = none :=
  fleet_isolation_aggregation env6 emptyStore [(1, "pet")] 0 10 rfl rfl rfl rfl rfl

/-! ### Rate limiter (ratelimit.go) -/

/-- The cancellation context as ratelimit.go's `Wait` could observe it:
whether it is already cancelled.  `ctx.Err()` is nil (`none`) for a live
context and a non-nil error for a cancelled one. -/
structure Ctx where
  cancelled : Bool
deriving DecidableEq, Repr

/-- `ctx.Err()`. -/
def Ctx.errValue (c : Ctx) : Option Err :=
  if c.cancelled then some (Err.msg "context canceled") else none

/-- What a call to `RateLimiter.Wait` does. -/
inductive WaitResult where
  /-- `time.Sleep(delay)` ran to completion (for the full computed delay) and
  `Wait` returned nil, so the caller proceeds to issue the upstream call. -/
  | sleptAndReturnedNil (sleptFor : Int)
  /-- `Wait` returned `ctx.Err()` without sleeping (the value is nil when the
  context was not cancelled). -/
  | returnedCtxErr (e : Option Err)
deriving DecidableEq, Repr

/-- ratelimit.go `Wait`: `reservation := limiter.Reserve()`; if
`!reservation.OK()` return `ctx.Err()`; otherwise `time.Sleep(delay)` and
return nil.  `reservationOK` and `delay` abstract the `rate.Limiter`
internals (with burst 1, a single-token reservation against a positive rate
is always OK, so the `ctx.Err()` path is effectively dead code); the essential
point is that the sleep is `time.Sleep`, which never observes the context. -/
def RateLimiter.Wait (ctx : Ctx) (reservationOK : Bool) (delay : Int) : WaitResult :=
  if !reservationOK then .returnedCtxErr ctx.errValue
  else .sleptAndReturnedNil delay

/-- C8 evaluated at the failing input: with the governing context already
cancelled, a granted reservation (the only possibility for a positive rate)
and a pending 250 ms delay, `Wait` sleeps the entire delay and returns nil —
it does not return a cancellation outcome, and the caller goes on to issue
the upstream call.  Moreover this holds for every cancelled context and every
delay: the return value never depends on the context once the reservation is
OK. -/
theorem wait_ignores_cancellation :
    RateLimiter.Wait ⟨true⟩ true 250 = WaitResult.sleptAndReturnedNil 250 ∧
    (∀ (ctx : Ctx) (delay : Int),
      RateLimiter.Wait ctx true delay = WaitResult.sleptAndReturnedNil delay) :=
  ⟨rfl, fun _ _ => rfl⟩
